import Mathlib

/-!
Verification of the PageRank implementation in src/pagerank.py.

The Python code is shallowly embedded over exact rationals:

* a Python corpus dict `page -> set(page)` becomes a `Corpus`: the key
  set `pages : Finset Nat` together with the value function
  `links : Nat -> Finset Nat` (meaningful on `pages`);
* a Python dict of floats becomes a key set plus a value function
  (`Dist`), or just a value function where the key set is fixed to the
  corpus's pages;
* Python floats become rationals (the claims under study are decided by
  gaps far larger than double rounding error);
* the unbounded `while True` loop of `iterate_pagerank` becomes a
  fuel-indexed recursion returning `none` when fuel runs out;
* the two `random` draws of `sample_pagerank` become explicit oracle
  parameters (`start` for `random.choice`, `draw` for `random.choices`);
  the oracle ranges over arbitrary naturals, a superset of the pages the
  real draws can return, so properties proved for all oracles cover all
  real executions; exceptions (`IndexError` from choosing a start page in
  an empty corpus, `KeyError` from incrementing a counter at a key outside
  the dict) become an `Except` error result.
-/

attribute [local semireducible] Rat.add Rat.mul Rat.inv Rat.sub

namespace PageRank

/-- A corpus: the key set of the Python dict together with its value
function. `links p` is only meaningful when `p` is a member of `pages`
(accessing a non-key in Python raises; the code always guards those
accesses). -/
structure Corpus where
  pages : Finset ℕ
  links : ℕ → Finset ℕ

/-- A Python dict of rationals: its key set and its value function
(the value function is 0 off the key set for the dicts built here). -/
structure Dist where
  keys : Finset ℕ
  val : ℕ → ℚ

/-- Sum of the values of a dict, as `sum(d.values())` would compute it. -/
def distSum (d : Dist) : ℚ := ∑ p ∈ d.keys, d.val p

/-- Embedding of `transition_model` (src/pagerank.py lines 51-75).
If `page in corpus and len(corpus[page]) > 0`, every out-linked page is
given `damping_factor / len(corpus[page])`; then every corpus page has
`(1 - damping_factor) / num_pages` added (via `setdefault`).
The Python code would raise `ZeroDivisionError` on an empty corpus; the
model is only used with a nonempty one. -/
def transition_model (c : Corpus) (page : ℕ) (damping_factor : ℚ) : Dist :=
  { keys := (if page ∈ c.pages ∧ 0 < (c.links page).card then c.links page else ∅) ∪ c.pages
    val := fun p =>
      (if page ∈ c.pages ∧ 0 < (c.links page).card ∧ p ∈ c.links page
        then damping_factor / ((c.links page).card : ℚ) else 0)
      + (if p ∈ c.pages then (1 - damping_factor) / (c.pages.card : ℚ) else 0) }

/-- Embedding of the per-page update of `iterate_pagerank` (lines 126-128):
`(1 - damping_factor) / num_pages` plus `damping_factor` times
`sum(ranks[q] / len(corpus[q]) for q in corpus if page in corpus[q])`. -/
def newRank (c : Corpus) (damping_factor : ℚ) (ranks : ℕ → ℚ) (page : ℕ) : ℚ :=
  (1 - damping_factor) / (c.pages.card : ℚ) +
    damping_factor *
      ∑ q ∈ c.pages.filter (fun q => page ∈ c.links q), ranks q / ((c.links q).card : ℚ)

/-- Embedding of the accumulated `total_diff` of one iteration (line 131). -/
def totalDiff (c : Corpus) (ranks new_ranks : ℕ → ℚ) : ℚ :=
  ∑ p ∈ c.pages, |new_ranks p - ranks p|

/-- The convergence threshold hard-coded at line 119 of the source. -/
def threshold : ℚ := 1 / 2000

/-- The `while True` loop of `iterate_pagerank` (lines 121-136), fuel-indexed.
Each fuel step is one loop iteration: compute `new_ranks` and `total_diff`;
if `total_diff < threshold`, `break` — returning the CURRENT `ranks`, since
the `ranks = new_ranks` assignment at line 136 has not yet run — else
replace `ranks` by `new_ranks` and continue. -/
def iterateAux (c : Corpus) (damping_factor : ℚ) : ℕ → (ℕ → ℚ) → Option (ℕ → ℚ)
  | 0, _ => none
  | fuel + 1, ranks =>
    if totalDiff c ranks (newRank c damping_factor ranks) < threshold
    then some ranks
    else iterateAux c damping_factor fuel (newRank c damping_factor ranks)

/-- Embedding of `iterate_pagerank` (lines 106-138): start every page at
`1 / num_pages` and loop. `fuel` bounds the number of loop iterations;
`none` means the loop had not yet converged after `fuel` iterations. -/
def iterate_pagerank (c : Corpus) (damping_factor : ℚ) (fuel : ℕ) : Option (ℕ → ℚ) :=
  iterateAux c damping_factor fuel (fun _ => 1 / (c.pages.card : ℚ))

/-- Modelled from the spec (section 4.3, steps a-d): the loop order the
spec describes, which REPLACES the rank vector with the new one first and
only then tests the threshold, hence returns the newly computed vector of
the final iteration. Kept separate from `iterateAux` (the source's order)
so the two can be compared. -/
def iterateSpecAux (c : Corpus) (damping_factor : ℚ) : ℕ → (ℕ → ℚ) → Option (ℕ → ℚ)
  | 0, _ => none
  | fuel + 1, ranks =>
    if totalDiff c ranks (newRank c damping_factor ranks) < threshold
    then some (newRank c damping_factor ranks)
    else iterateSpecAux c damping_factor fuel (newRank c damping_factor ranks)

/-- Modelled from the spec: `iterate_pagerank` with the spec's
replace-then-test loop order. -/
def iterate_pagerank_specOrder (c : Corpus) (damping_factor : ℚ) (fuel : ℕ) :
    Option (ℕ → ℚ) :=
  iterateSpecAux c damping_factor fuel (fun _ => 1 / (c.pages.card : ℚ))

/-- The Python exceptions `sample_pagerank` can raise: `IndexError` from
`random.choice` on an empty corpus (line 90), `KeyError` from
`page_rank[page] += 1` when the drawn key is outside the counter dict
(line 97, possible only for an invalid corpus whose links leave the page
set). -/
inductive SampleError where
  | emptyChoice : SampleError
  | missingKey : SampleError
deriving DecidableEq

/-- One `page_rank[page] += 1` update (line 97). -/
def bump (page_rank : ℕ → ℚ) (chosen : ℕ) : ℕ → ℚ :=
  fun p => if p = chosen then page_rank p + 1 else page_rank p

/-- The sampling loop of `sample_pagerank` (lines 92-97), one fuel step per
sample. The transition distribution is computed as in the source; the
weighted draw from its keys is abstracted by the oracle `draw` (any page
the real `random.choices` can return is a key of `transition_probs`, and
the oracle ranges over a superset of those). The membership test models
the `KeyError` of `page_rank[page] += 1` for a key outside the dict. -/
def walk (c : Corpus) (damping_factor : ℚ) (draw : ℕ → ℕ) :
    ℕ → ℕ → (ℕ → ℚ) → Except SampleError (ℕ → ℚ)
  | 0, _, page_rank => .ok page_rank
  | k + 1, page, page_rank =>
    let _transition_probs := transition_model c page damping_factor
    let next := draw k
    if next ∈ c.pages
    then walk c damping_factor draw k next (bump page_rank next)
    else .error .missingKey

/-- Embedding of `sample_pagerank` (lines 78-103): seed every page's
counter with `1 / num_pages`, pick a start page (`random.choice` raises
on an empty corpus), run the `n`-step walk, then divide every counter by
the sum of all counters. -/
def sample_pagerank (c : Corpus) (damping_factor : ℚ) (n : ℕ) (start : ℕ)
    (draw : ℕ → ℕ) : Except SampleError (ℕ → ℚ) :=
  if c.pages = ∅ then .error .emptyChoice
  else
    match walk c damping_factor draw n start
        (fun p => if p ∈ c.pages then 1 / (c.pages.card : ℚ) else 0) with
    | .error e => .error e
    | .ok page_rank => .ok (fun p => page_rank p / ∑ q ∈ c.pages, page_rank q)

/-- Holds when an `Except` value, if it is `ok`, satisfies `P`. -/
def ExceptAll {ε α : Type} (P : α → Prop) : Except ε α → Prop
  | .ok a => P a
  | .error _ => True

/-- Holds when an `Option` value, if it is `some`, satisfies `P`. -/
def OptionAll {α : Type} (P : α → Prop) : Option α → Prop
  | some a => P a
  | none => True

/-- The corpus invariant of the spec: out-links stay inside the page set. -/
@[reducible] def Valid (c : Corpus) : Prop := ∀ p ∈ c.pages, c.links p ⊆ c.pages

/-- The empty corpus. -/
def emptyC : Corpus := ⟨∅, fun _ => ∅⟩

/-- Two pages, page 0 linking to page 1, page 1 a sink. -/
def sinkC : Corpus := ⟨{0, 1}, fun p => if p = 0 then {1} else ∅⟩

/-- Two pages linking to each other (the spec's two-page scenario). -/
def twoC : Corpus := ⟨{0, 1}, fun p => if p = 0 then {1} else if p = 1 then {0} else ∅⟩

/-- The spec's three-page acyclic scenario with a sink:
0 links to 1 and 2, 1 links to 2, 2 is a sink. -/
def acyC : Corpus := ⟨{0, 1, 2}, fun p => if p = 0 then {1, 2} else if p = 1 then {2} else ∅⟩

/-- Three pages: 0 and 1 link to each other, 2 links to 0. The iteration
approaches its fixed point geometrically without reaching it. -/
def cycC : Corpus :=
  ⟨{0, 1, 2}, fun p => if p = 0 then {1} else if p = 1 then {0} else if p = 2 then {0} else ∅⟩

/-- Summing a counter dict after one `page_rank[a] += 1` update adds 1,
provided `a` is a key. -/
theorem sum_bump (s : Finset ℕ) (f : ℕ → ℚ) (a : ℕ) (ha : a ∈ s) :
    ∑ p ∈ s, bump f a p = (∑ p ∈ s, f p) + 1 := by
  have h : ∀ p, bump f a p = f p + (if p = a then 1 else 0) := by
    intro p
    unfold bump
    split <;> simp
  simp only [h]
  rw [Finset.sum_add_distrib, Finset.sum_ite_eq' s a (fun _ => (1 : ℚ))]
  simp [ha]

/-- A successful `n`-step walk adds exactly `n` to the total of the counters:
each step increments one counter by 1 (and a step whose drawn page is not a
counter key errors instead). -/
theorem walk_ok_sum (c : Corpus) (d : ℚ) (draw : ℕ → ℕ) :
    ∀ (k page : ℕ) (cnt cnt2 : ℕ → ℚ), walk c d draw k page cnt = .ok cnt2 →
      ∑ p ∈ c.pages, cnt2 p = (∑ p ∈ c.pages, cnt p) + (k : ℚ) := by
  intro k
  induction k with
  | zero =>
    intro page cnt cnt2 h
    simp only [walk, Except.ok.injEq] at h
    subst h
    simp
  | succ m ih =>
    intro page cnt cnt2 h
    simp only [walk] at h
    by_cases hm : draw m ∈ c.pages
    · rw [if_pos hm] at h
      rw [ih (draw m) (bump cnt (draw m)) cnt2 h, sum_bump c.pages cnt (draw m) hm]
      push_cast
      ring
    · rw [if_neg hm] at h
      exact absurd h (by simp)

/-- A successful walk never decreases any counter. -/
theorem walk_ok_le (c : Corpus) (d : ℚ) (draw : ℕ → ℕ) :
    ∀ (k page : ℕ) (cnt cnt2 : ℕ → ℚ), walk c d draw k page cnt = .ok cnt2 →
      ∀ p, cnt p ≤ cnt2 p := by
  intro k
  induction k with
  | zero =>
    intro page cnt cnt2 h p
    simp only [walk, Except.ok.injEq] at h
    subst h
    exact le_refl _
  | succ m ih =>
    intro page cnt cnt2 h p
    simp only [walk] at h
    by_cases hm : draw m ∈ c.pages
    · rw [if_pos hm] at h
      refine le_trans ?_ (ih (draw m) (bump cnt (draw m)) cnt2 h p)
      unfold bump
      split <;> simp
    · rw [if_neg hm] at h
      exact absurd h (by simp)

/-- The seed counters `{page: 1/num_pages for page in corpus}` total 1
when the corpus is nonempty. -/
theorem seedSum (c : Corpus) (hc : c.pages ≠ ∅) :
    ∑ p ∈ c.pages, (if p ∈ c.pages then 1 / (c.pages.card : ℚ) else 0) = 1 := by
  have hcard : (c.pages.card : ℚ) ≠ 0 :=
    Nat.cast_ne_zero.mpr (Finset.card_ne_zero.mpr (Finset.nonempty_iff_ne_empty.mpr hc))
  rw [Finset.sum_congr rfl (fun p hp => if_pos hp), Finset.sum_const, nsmul_eq_mul,
    mul_one_div, div_self hcard]

/-- C1: the spec says `transition_model` returns the uniform distribution
`1/N` over all pages when the queried page is a sink. Evaluating the code's
embedding on the valid two-page corpus with sink page 1 and damping 0.85:
every page receives `(1 - damping)/N = 3/40`, which differs from
`1/N = 1/2`. The damping mass is simply dropped, so the code contradicts
its own docstring (the result is not a probability distribution). -/
theorem transition_model_sink_behavior :
    (transition_model sinkC 1 (17/20)).val 0 = 3/40
    ∧ (transition_model sinkC 1 (17/20)).val 1 = 3/40
    ∧ (transition_model sinkC 1 (17/20)).val 0 ≠ 1 / (sinkC.pages.card : ℚ)
    ∧ (transition_model sinkC 1 (17/20)).val 1 ≠ 1 / (sinkC.pages.card : ℚ) := by
  decide

/-- C2: the spec says the distribution returned by `transition_model` sums
to 1 (within 1e-9) for every page of a valid graph. Evaluating the code's
embedding on the valid two-page corpus at the sink page 1 with damping
0.85: the dict's values sum to `1 - damping = 3/20`, off from 1 by far
more than 1e-9 (the key set is complete; only the total is wrong). -/
theorem transition_model_sink_sum :
    Valid sinkC
    ∧ (transition_model sinkC 1 (17/20)).keys = sinkC.pages
    ∧ distSum (transition_model sinkC 1 (17/20)) = 3/20
    ∧ ¬ |distSum (transition_model sinkC 1 (17/20)) - 1| ≤ 1/1000000000 := by
  decide

/-- C3: the spec says the rank vector returned by `iterate_pagerank` sums
to 1 within 1e-6. Evaluating the code's embedding on the valid two-page
corpus with sink page 1 and damping 0.85: the loop converges after three
iterations and returns a vector summing to `171/800 = 0.21375` — the sink
drains rank mass every iteration and nothing restores it. -/
theorem iterate_pagerank_sink_sum :
    Valid sinkC
    ∧ ((iterate_pagerank sinkC (17/20) 10).map (fun r => ∑ p ∈ sinkC.pages, r p))
        = some (171/800)
    ∧ ¬ |(171/800 : ℚ) - 1| ≤ 1/1000000 := by
  decide

/-- C4 counterexample: the claim says each iteration replaces the rank
vector first and then tests the threshold, so that the vector returned is
the newly computed one. On the three-page corpus `cycC` with damping 1/2
the source's loop (test before replace, returning the predecessor) and the
claim's loop order return different vectors, so the claim as stated is
false: both runs converge within 30 iterations yet disagree at page 1. -/
theorem iterate_pagerank_order_cex :
    ((iterate_pagerank cycC (1/2) 30).map (fun r => r 1))
      ≠ ((iterate_pagerank_specOrder cycC (1/2) 30).map (fun r => r 1))
    ∧ (iterate_pagerank cycC (1/2) 30).isSome = true
    ∧ (iterate_pagerank_specOrder cycC (1/2) 30).isSome = true := by
  decide

/-- C4 amended: each iteration of `iterate_pagerank` first computes the new
vector and the total absolute change, and stops BEFORE the replacement when
that change is below the threshold; the vector returned is therefore the
predecessor of the last newly computed vector. It still satisfies the
stopping guarantee: its own one-step update moves it by less than the
threshold in L1 norm. -/
theorem iterate_pagerank_returns_predecessor (c : Corpus) (d : ℚ) (fuel : ℕ) :
    OptionAll (fun res => totalDiff c res (newRank c d res) < threshold)
      (iterate_pagerank c d fuel) := by
  unfold iterate_pagerank
  generalize (fun _ : ℕ => 1 / (c.pages.card : ℚ)) = r
  induction fuel generalizing r with
  | zero => trivial
  | succ m ih =>
    by_cases h : totalDiff c r (newRank c d r) < threshold
    · simp [iterateAux, h, OptionAll]
    · simpa [iterateAux, h] using ih (newRank c d r)

/-- C9: with damping factor exactly 1, `iterate_pagerank` terminates on the
spec's small acyclic three-page corpus with a sink (`acyC`): within 10 loop
iterations it converges (to the all-zero vector — all rank mass has drained
through the sink). The code does not reject damping = 1. -/
theorem iterate_pagerank_damping_one_terminates :
    ((iterate_pagerank acyC 1 10).map (fun r => (r 0, r 1, r 2)))
      = some ((0 : ℚ), (0 : ℚ), (0 : ℚ)) := by
  decide

/-- C5 counterexample: a call to `sample_pagerank` with sample count
`n = 0 < 1` on a nonempty corpus does not fail: it silently returns the
normalized seed counters, the degenerate uniform vector `(1/2, 1/2)`. -/
theorem sample_pagerank_n_zero_cex :
    ((sample_pagerank twoC (17/20) 0 0 (fun _ => 0)).toOption.map (fun r => (r 0, r 1)))
      = some ((1/2 : ℚ), (1/2 : ℚ)) := by
  decide

/-- C5 amended: `sample_pagerank` on an empty graph does fail with a
clearly identified error before producing any result (the `IndexError` of
`random.choice` on an empty key list), but a sample count below 1 is NOT
rejected: with `n = 0` on a nonempty corpus the call succeeds, skipping
the walk entirely, and returns the normalized seed counters — the uniform
vector assigning `1/N` to every page. -/
theorem sample_pagerank_validation (c e : Corpus) (d : ℚ) (n start : ℕ)
    (draw : ℕ → ℕ) (p : ℕ) (he : e.pages = ∅) (hp : p ∈ c.pages) :
    sample_pagerank e d n start draw = .error .emptyChoice
    ∧ (sample_pagerank c d 0 start draw).toOption.map (fun r => r p)
        = some (1 / (c.pages.card : ℚ)) := by
  constructor
  · simp [sample_pagerank, he]
  · have hne : c.pages ≠ ∅ := Finset.ne_empty_of_mem hp
    simp only [sample_pagerank, if_neg hne, walk, Except.toOption, Option.map]
    rw [seedSum c hne]
    simp [hp]

/-- C5 amended, witness at a concrete input: the empty corpus errors for
`n = 5`, and the two-page corpus with `n = 0` returns `1/N` at page 0. -/
theorem sample_pagerank_validation_witness :
    (emptyC.pages = ∅ ∧ 0 ∈ twoC.pages)
    ∧ sample_pagerank emptyC (17/20) 5 0 (fun _ => 0) = .error .emptyChoice
    ∧ (sample_pagerank twoC (17/20) 0 0 (fun _ => 0)).toOption.map (fun r => r 0)
        = some (1 / (twoC.pages.card : ℚ)) :=
  ⟨⟨by decide, by decide⟩,
    sample_pagerank_validation twoC emptyC (17/20) 5 0 (fun _ => 0) 0 (by decide) (by decide)⟩

/-- C6: in every iteration the new rank of page `p` is
`(1 - damping)/N + damping * Σ (rank q / out_degree q)` over exactly the
pages `q` whose out-link set contains `p`; sink pages (out-degree 0)
contribute to no sum, since a page with `p` among its out-links has
positive out-degree. The sum reads only the unmodified previous vector
`ranks`. -/
theorem newRank_formula (c : Corpus) (d : ℚ) (ranks : ℕ → ℚ) (p : ℕ) :
    newRank c d ranks p = (1 - d) / (c.pages.card : ℚ) +
      d * ∑ q ∈ c.pages.filter (fun q => p ∈ c.links q ∧ 0 < (c.links q).card),
        ranks q / ((c.links q).card : ℚ) := by
  unfold newRank
  have h : c.pages.filter (fun q => p ∈ c.links q)
      = c.pages.filter (fun q => p ∈ c.links q ∧ 0 < (c.links q).card) := by
    refine Finset.filter_congr (fun q hq => ?_)
    constructor
    · exact fun h1 => ⟨h1, Finset.card_pos.mpr ⟨p, h1⟩⟩
    · exact fun h1 => h1.1
  rw [h]

/-- C7: for a page with at least one out-link (in a corpus whose out-links
stay in the page set, with damping in [0,1]), `transition_model` gives
each out-linked page `damping/out_degree + (1 - damping)/N`, every other
corpus page exactly `(1 - damping)/N`, and hence every corpus page at
least `(1 - damping)/N`. -/
theorem transition_model_outlinks (c : Corpus) (page : ℕ) (d : ℚ)
    (hd0 : 0 ≤ d) (hp : page ∈ c.pages)
    (hdeg : 0 < (c.links page).card) (hsub : c.links page ⊆ c.pages) :
    (∀ q ∈ c.links page, (transition_model c page d).val q
        = d / ((c.links page).card : ℚ) + (1 - d) / (c.pages.card : ℚ))
    ∧ (∀ q ∈ c.pages, q ∉ c.links page → (transition_model c page d).val q
        = (1 - d) / (c.pages.card : ℚ))
    ∧ (∀ q ∈ c.pages, (1 - d) / (c.pages.card : ℚ) ≤ (transition_model c page d).val q) := by
  refine ⟨fun q hq => ?_, fun q hq hnq => ?_, fun q hq => ?_⟩
  · simp [transition_model, hp, hdeg, hq, hsub hq]
  · simp [transition_model, hq, hnq]
  · have h1 : (0 : ℚ) ≤ if page ∈ c.pages ∧ 0 < (c.links page).card ∧ q ∈ c.links page
        then d / ((c.links page).card : ℚ) else 0 := by
      split
      · exact div_nonneg hd0 (Nat.cast_nonneg _)
      · exact le_refl 0
    simp only [transition_model, if_pos hq]
    linarith

/-- C7 witness at a concrete input: page 0 of the two-page corpus `sinkC`
with damping 0.85 satisfies every hypothesis, and the conclusion follows by
applying the theorem. -/
theorem transition_model_outlinks_witness :
    ((0 : ℚ) ≤ 17/20 ∧ 0 ∈ sinkC.pages
      ∧ 0 < (sinkC.links 0).card ∧ sinkC.links 0 ⊆ sinkC.pages)
    ∧ ((∀ q ∈ sinkC.links 0, (transition_model sinkC 0 (17/20)).val q
        = (17/20) / ((sinkC.links 0).card : ℚ) + (1 - 17/20) / (sinkC.pages.card : ℚ))
      ∧ (∀ q ∈ sinkC.pages, q ∉ sinkC.links 0 → (transition_model sinkC 0 (17/20)).val q
        = (1 - 17/20) / (sinkC.pages.card : ℚ))
      ∧ (∀ q ∈ sinkC.pages,
        (1 - 17/20) / (sinkC.pages.card : ℚ) ≤ (transition_model sinkC 0 (17/20)).val q)) :=
  ⟨⟨by decide, by decide, by decide, by decide⟩,
    transition_model_outlinks sinkC 0 (17/20) (by decide) (by decide)
      (by decide) (by decide)⟩

/-- C8: whenever `sample_pagerank` returns a rank vector, that vector sums
to exactly 1 over the corpus's pages (hence within 1e-6), for every
corpus, damping factor, sample count and sequence of random draws: the
seed counters total 1, every successful step adds exactly 1 to one
counter, and each counter is divided by the sum of all counters. -/
theorem sample_pagerank_sums_to_one (c : Corpus) (d : ℚ) (n start : ℕ) (draw : ℕ → ℕ) :
    ExceptAll (fun r => ∑ p ∈ c.pages, r p = 1) (sample_pagerank c d n start draw) := by
  unfold sample_pagerank
  by_cases hc : c.pages = ∅
  · simp [hc, ExceptAll]
  · rw [if_neg hc]
    cases hw : walk c d draw n start
        (fun p => if p ∈ c.pages then 1 / (c.pages.card : ℚ) else 0) with
    | error e => simp [ExceptAll]
    | ok cnt =>
      simp only [ExceptAll]
      have hsum := walk_ok_sum c d draw n start _ cnt hw
      rw [seedSum c hc] at hsum
      have hpos : (0 : ℚ) < ∑ q ∈ c.pages, cnt q := by
        rw [hsum]
        positivity
      rw [← Finset.sum_div]
      exact div_self (ne_of_gt hpos)

/-- C8 witness at a concrete input: a 3-step run on the two-page corpus
returns the vector `(7/8, 1/8)`, and the theorem applies to give sum 1. -/
theorem sample_pagerank_sums_to_one_witness :
    ((sample_pagerank twoC (17/20) 3 0 (fun _ => 0)).toOption.map (fun r => (r 0, r 1))
      = some ((7/8 : ℚ), (1/8 : ℚ)))
    ∧ ExceptAll (fun r => ∑ p ∈ twoC.pages, r p = 1)
        (sample_pagerank twoC (17/20) 3 0 (fun _ => 0)) :=
  ⟨by decide, sample_pagerank_sums_to_one twoC (17/20) 3 0 (fun _ => 0)⟩

/-- C10: whenever `sample_pagerank` returns a rank vector, the
normalization divided by a strictly positive total (the counters were
seeded with `1/N > 0` and only ever incremented), and every corpus page's
returned rank is strictly positive — including pages the walk never
visited. -/
theorem sample_pagerank_positive (c : Corpus) (d : ℚ) (n start : ℕ) (draw : ℕ → ℕ) :
    (c.pages ≠ ∅ → ExceptAll (fun cnt => 0 < ∑ q ∈ c.pages, cnt q)
      (walk c d draw n start (fun p => if p ∈ c.pages then 1 / (c.pages.card : ℚ) else 0)))
    ∧ ExceptAll (fun r => ∀ p ∈ c.pages, 0 < r p) (sample_pagerank c d n start draw) := by
  have key : ∀ cnt, walk c d draw n start
      (fun p => if p ∈ c.pages then 1 / (c.pages.card : ℚ) else 0) = .ok cnt →
      c.pages ≠ ∅ → (0 : ℚ) < ∑ q ∈ c.pages, cnt q := by
    intro cnt hw hc
    have hsum := walk_ok_sum c d draw n start _ cnt hw
    rw [seedSum c hc] at hsum
    rw [hsum]
    positivity
  constructor
  · intro hc
    cases hw : walk c d draw n start
        (fun p => if p ∈ c.pages then 1 / (c.pages.card : ℚ) else 0) with
    | error e => simp [ExceptAll]
    | ok cnt => exact key cnt hw hc
  · unfold sample_pagerank
    by_cases hc : c.pages = ∅
    · simp [hc, ExceptAll]
    · rw [if_neg hc]
      cases hw : walk c d draw n start
          (fun p => if p ∈ c.pages then 1 / (c.pages.card : ℚ) else 0) with
      | error e => simp [ExceptAll]
      | ok cnt =>
        simp only [ExceptAll]
        intro p hp
        have hpos := key cnt hw hc
        have hle := walk_ok_le c d draw n start _ cnt hw p
        have hseed : (0 : ℚ) < if p ∈ c.pages then 1 / (c.pages.card : ℚ) else 0 := by
          rw [if_pos hp]
          have : 0 < c.pages.card := Finset.card_pos.mpr ⟨p, hp⟩
          positivity
        exact div_pos (lt_of_lt_of_le hseed hle) hpos

/-- C10 witness at a concrete input: a 4-step run on the two-page corpus
that only ever draws page 0 still gives page 1 (never visited) the
strictly positive rank `1/10`; the theorem applies with the nonemptiness
hypothesis discharged. -/
theorem sample_pagerank_positive_witness :
    ((sample_pagerank twoC (17/20) 4 0 (fun _ => 0)).toOption.map (fun r => r 1)
      = some (1/10 : ℚ))
    ∧ ExceptAll (fun cnt => 0 < ∑ q ∈ twoC.pages, cnt q)
        (walk twoC (17/20) (fun _ => 0) 4 0
          (fun p => if p ∈ twoC.pages then 1 / (twoC.pages.card : ℚ) else 0))
    ∧ ExceptAll (fun r => ∀ p ∈ twoC.pages, 0 < r p)
        (sample_pagerank twoC (17/20) 4 0 (fun _ => 0)) :=
  ⟨by decide,
    (sample_pagerank_positive twoC (17/20) 4 0 (fun _ => 0)).1 (by decide),
    (sample_pagerank_positive twoC (17/20) 4 0 (fun _ => 0)).2⟩

end PageRank
